import Mathlib

/-!
Verification development for the pokedex repository: a shallow embedding of
the `pokecache` TTL cache and of the command handlers in `main.go`, with
theorems settling the specified properties.

Modelling conventions: wall-clock instants and durations are `Nat`, byte
payloads are `List Nat` (one `Nat` per byte), and the cache store is an
association list from string keys to entries, kept duplicate-free by `Add`.
Stateful Go code is embedded as explicit state passing; fallible calls
(`http.Get`, `io.ReadAll`, `json.Unmarshal`) are embedded as `Except` /
`Option` valued parameters.
-/

namespace Pokedex

/-- Bytes of a cached response body. -/
abbrev Payload := List Nat

/-- Modelled from the spec: the cache entry of the `pokecache` package
(not under `src/`), holding the insertion time and the opaque payload
(spec section 3, "CacheEntry"). -/
structure CacheEntry where
  createdAt : Nat
  payload : Payload
  deriving DecidableEq

/-- Modelled from the spec: the `pokecache.Cache`, a keyed store of entries
together with the fixed TTL chosen at construction (spec section 3,
"Cache"; the mutex guard is not represented since the embedding
serializes operations). -/
structure Cache where
  store : List (String × CacheEntry)
  ttl : Nat
  deriving DecidableEq

/-- Modelled from the spec: `NewCache(ttl)` returns a ready-to-use cache
with an empty store (spec section 4.1, "Construction"). -/
def NewCache (ttl : Nat) : Cache :=
  { store := [], ttl := ttl }

/-- Modelled from the spec: `Add(key, payload)` inserts or overwrites the
entry for `key`, stamping `createdAt` with the current time (spec
section 4.1, "Add"). -/
def Cache.Add (c : Cache) (k : String) (p : Payload) (now : Nat) : Cache :=
  { c with store :=
      (k, { createdAt := now, payload := p }) ::
        c.store.filter (fun kv => !(kv.1 == k)) }

/-- Modelled from the spec: `Get(key)` returns `(payload, true)` if an entry
exists for `key` and `(empty, false)` otherwise, with no age check at
lookup time (spec section 4.1, "Get"). -/
def Cache.Get (c : Cache) (k : String) : Payload × Bool :=
  match c.store.find? (fun kv => kv.1 == k) with
  | some kv => (kv.2.payload, true)
  | none => ([], false)

/-- Modelled from the spec: one tick of the background reaper, which removes
every entry whose age `now - createdAt` is at least `ttl` (spec
section 4.1, "Background reaper"). -/
def Cache.reap (c : Cache) (now : Nat) : Cache :=
  { c with store :=
      c.store.filter (fun kv => now - kv.2.createdAt < c.ttl) }

/-- One mutating cache operation: an `Add` with its key, payload and time,
or a reaper tick at a given time. `Get` is read-only and needs no entry
here. -/
inductive Op where
  | add (k : String) (p : Payload) (t : Nat)
  | reap (t : Nat)
  deriving DecidableEq

/-- Applies one operation to the cache. -/
def applyOp (c : Cache) : Op → Cache
  | Op.add k p t => c.Add k p t
  | Op.reap t => c.reap t

/-- Runs a sequence of operations left to right. -/
def run (c : Cache) (ops : List Op) : Cache :=
  List.foldl applyOp c ops

/-- Tests whether an operation is an `Add` targeting the key `k`. -/
def Op.isAddTo (k : String) : Op → Bool
  | Op.add q _ _ => q == k
  | Op.reap _ => false

/-- Tests that an operation neither adds to key `k` nor is a reaper tick at
or after the given deadline. -/
def Op.okBefore (k : String) (deadline : Nat) : Op → Bool
  | Op.add q _ _ => !(q == k)
  | Op.reap t => t < deadline

/-- Uniqueness of keys in the store. -/
def Cache.keysNodup (c : Cache) : Prop :=
  (c.store.map Prod.fst).Nodup

/-- C1: for every key `k` and payload `p`, calling `Add(k, p)` and then
immediately `Get(k)` returns `(p, true)`. -/
theorem c1_add_then_get (c : Cache) (k : String) (p : Payload) (t : Nat) :
    (c.Add k p t).Get k = (p, true) := by
  simp [Cache.Add, Cache.Get]

/-- Filtering keeps a found element that satisfies the filter, and keeps it
the first match of the search predicate. -/
theorem find?_filter_of_found {α : Type} (pr q : α → Bool) (l : List α) (a : α)
    (h : l.find? pr = some a) (hq : q a = true) :
    (l.filter q).find? pr = some a := by
  induction l with
  | nil => simp at h
  | cons b l ih =>
    by_cases hb : pr b = true
    · rw [List.find?_cons_of_pos _ hb] at h
      cases h
      rw [List.filter_cons_of_pos hq, List.find?_cons_of_pos _ hb]
    · rw [List.find?_cons_of_neg _ hb] at h
      by_cases hqb : q b = true
      · rw [List.filter_cons_of_pos hqb, List.find?_cons_of_neg _ hb]
        exact ih h
      · rw [List.filter_cons_of_neg (by simpa using hqb)]
        exact ih h

/-- Filtering a list in which the search predicate finds nothing still finds
nothing. -/
theorem find?_filter_of_none {α : Type} (pr q : α → Bool) (l : List α)
    (h : l.find? pr = none) : (l.filter q).find? pr = none := by
  rw [List.find?_eq_none] at h ⊢
  intro x hx
  exact h x (List.mem_of_mem_filter hx)

/-- Adding an entry preserves key uniqueness of the store. -/
theorem keysNodup_add (c : Cache) (k : String) (p : Payload) (t : Nat)
    (h : c.keysNodup) : (c.Add k p t).keysNodup := by
  unfold Cache.keysNodup Cache.Add at *
  simp only [List.map_cons, List.nodup_cons]
  refine ⟨?_, ?_⟩
  · intro hk
    obtain ⟨⟨q, e⟩, hmem, hfst⟩ := List.mem_map.mp hk
    have hne := List.of_mem_filter hmem
    simp only at hfst
    subst hfst
    simp at hne
  · exact h.sublist ((List.filter_sublist _).map Prod.fst)

/-- C2: the second `Add` on the same key fully overwrites the first
(`Get` then returns the second payload), the stored entry's `createdAt`
is reset to the time of the second `Add`, and key uniqueness is kept, so
at most one entry exists per key. -/
theorem c2_overwrite (c : Cache) (k : String) (p1 p2 : Payload) (t1 t2 : Nat)
    (hnd : c.keysNodup) :
    ((c.Add k p1 t1).Add k p2 t2).Get k = (p2, true) ∧
    ((c.Add k p1 t1).Add k p2 t2).store.find? (fun kv => kv.1 == k) =
      some (k, { createdAt := t2, payload := p2 }) ∧
    ((c.Add k p1 t1).Add k p2 t2).keysNodup := by
  refine ⟨?_, ?_, ?_⟩
  · simp [Cache.Add, Cache.Get]
  · simp [Cache.Add]
  · exact keysNodup_add _ _ _ _ (keysNodup_add _ _ _ _ hnd)

/-- Witness for C2 at a concrete cache, key, payloads and times. -/
theorem c2_overwrite_witness :
    (((NewCache 5).Add ("k") [1] 0).Add ("k") [2] 3).Get ("k") = ([2], true) ∧
    (((NewCache 5).Add ("k") [1] 0).Add ("k") [2] 3).store.find?
      (fun kv => kv.1 == ("k")) = some (("k"), { createdAt := 3, payload := [2] }) ∧
    (((NewCache 5).Add ("k") [1] 0).Add ("k") [2] 3).keysNodup :=
  c2_overwrite (NewCache 5) ("k") [1] [2] 0 3 (by simp [NewCache, Cache.keysNodup])

/-- Running operations none of which adds to `k` never makes `k` found. -/
theorem run_find_none (k : String) (ops : List Op)
    (h : ∀ op ∈ ops, Op.isAddTo k op = false) (c : Cache)
    (hc : c.store.find? (fun kv => kv.1 == k) = none) :
    (run c ops).store.find? (fun kv => kv.1 == k) = none := by
  induction ops generalizing c with
  | nil => simpa [run] using hc
  | cons op ops ih =>
    have hop := h op (List.mem_cons_self op ops)
    have hrest : ∀ o ∈ ops, Op.isAddTo k o = false :=
      fun o ho => h o (List.mem_cons_of_mem _ ho)
    have hstep : run c (op :: ops) = run (applyOp c op) ops := rfl
    rw [hstep]
    refine ih hrest _ ?_
    cases op with
    | add q p t =>
      simp only [Op.isAddTo] at hop
      simp only [applyOp, Cache.Add]
      rw [List.find?_cons_of_neg _ (by simp [hop])]
      exact find?_filter_of_none _ _ _ hc
    | reap t =>
      exact find?_filter_of_none _ _ _ hc

/-- C3: the store is empty right after `NewCache`, and any key never passed
to `Add` yields `Get = (_, false)` after any sequence of operations. -/
theorem c3_never_added (d : Nat) (ops : List Op) (k : String)
    (h : ∀ op ∈ ops, Op.isAddTo k op = false) :
    (NewCache d).store = [] ∧ (run (NewCache d) ops).Get k = ([], false) := by
  refine ⟨rfl, ?_⟩
  unfold Cache.Get
  rw [run_find_none k ops h (NewCache d) rfl]

/-- Witness for C3 with a concrete TTL, operation list and key. -/
theorem c3_never_added_witness :
    (NewCache 5).store = [] ∧
    (run (NewCache 5) [Op.add ("b") [1] 0, Op.reap 7]).Get ("a") =
      ([], false) :=
  c3_never_added 5 [Op.add ("b") [1] 0, Op.reap 7] ("a") (by decide)

/-- Reaping at any instant at least one TTL after an `Add` removes the added
key entirely. -/
theorem reap_after_add_get (c : Cache) (k : String) (p : Payload) (t T : Nat)
    (hT : t + c.ttl ≤ T) :
    ((c.Add k p t).reap T).Get k = ([], false) := by
  unfold Cache.Get
  have hnone : (((c.Add k p t).reap T).store.find? (fun kv => kv.1 == k)) = none := by
    simp only [Cache.Add, Cache.reap]
    rw [List.filter_cons_of_neg (by simp; omega)]
    apply find?_filter_of_none
    rw [List.find?_eq_none]
    intro x hx
    have := List.of_mem_filter hx
    simpa using this
  rw [hnone]

/-- C4: a reaper tick removes exactly the entries whose age has reached the
TTL (membership characterization), and after `Add(k, p)` at time `t` there
is a tick, at a multiple of the TTL no later than `t + 2·ttl` yet at
least one full TTL after `t`, whose sweep makes `Get(k)` return
`(_, false)`. -/
theorem c4_reaper_expiry (c : Cache) (k : String) (p : Payload)
    (t now : Nat) (key : String) (e : CacheEntry) (hd : 0 < c.ttl) :
    ((key, e) ∈ (c.reap now).store ↔
      ((key, e) ∈ c.store ∧ now - e.createdAt < c.ttl)) ∧
    (∃ n, t + c.ttl ≤ n * c.ttl ∧ n * c.ttl ≤ t + 2 * c.ttl ∧
      ((c.Add k p t).reap (n * c.ttl)).Get k = ([], false)) := by
  constructor
  · simp [Cache.reap, List.mem_filter]
  · obtain ⟨q, r, ht, hr⟩ : ∃ q r, t = c.ttl * q + r ∧ r < c.ttl :=
      ⟨t / c.ttl, t % c.ttl, (Nat.div_add_mod t c.ttl).symm,
        Nat.mod_lt t hd⟩
    refine ⟨q + 2, ?_, ?_, ?_⟩
    · have he : (q + 2) * c.ttl = c.ttl * q + 2 * c.ttl := by ring
      rw [he, ht, Nat.add_assoc]
      exact Nat.add_le_add_left (by omega) _
    · have he : (q + 2) * c.ttl = c.ttl * q + 2 * c.ttl := by ring
      rw [he, ht, Nat.add_assoc]
      exact Nat.add_le_add_left (by omega) _
    · apply reap_after_add_get
      have he : (q + 2) * c.ttl = c.ttl * q + 2 * c.ttl := by ring
      rw [he, ht, Nat.add_assoc]
      exact Nat.add_le_add_left (by omega) _

/-- Witness for C4 at a concrete cache, key, payload, times and entry. -/
theorem c4_reaper_expiry_witness :
    ((("a"), CacheEntry.mk 0 [1]) ∈ ((NewCache 5).reap 7).store ↔
      ((("a"), CacheEntry.mk 0 [1]) ∈ (NewCache 5).store ∧ 7 - 0 < 5)) ∧
    (∃ n, 0 + 5 ≤ n * 5 ∧ n * 5 ≤ 0 + 2 * 5 ∧
      (((NewCache 5).Add ("a") [1] 0).reap (n * 5)).Get ("a") =
        ([], false)) :=
  c4_reaper_expiry (NewCache 5) ("a") [1] 0 7 ("a") (CacheEntry.mk 0 [1])
    (by decide)

/-- Running operations that neither add to `k` nor reap at or past the
deadline `t + d` preserves the entry `(k, ⟨t, p⟩)` as the first match,
and preserves the TTL. -/
theorem run_find_inv (k : String) (p : Payload) (t d : Nat) (hd : 0 < d)
    (ops : List Op) (hops : ∀ op ∈ ops, Op.okBefore k (t + d) op = true)
    (c : Cache) (httl : c.ttl = d)
    (hfind : c.store.find? (fun kv => kv.1 == k) =
      some (k, CacheEntry.mk t p)) :
    (run c ops).store.find? (fun kv => kv.1 == k) =
      some (k, CacheEntry.mk t p) ∧ (run c ops).ttl = d := by
  induction ops generalizing c with
  | nil => exact ⟨hfind, httl⟩
  | cons op ops ih =>
    have hop := hops op (List.mem_cons_self op ops)
    have hrest : ∀ o ∈ ops, Op.okBefore k (t + d) o = true :=
      fun o ho => hops o (List.mem_cons_of_mem _ ho)
    have hstep : run c (op :: ops) = run (applyOp c op) ops := rfl
    rw [hstep]
    cases op with
    | add q p' t' =>
      have hop' : ¬q = k := by simpa [Op.okBefore] using hop
      refine ih hrest _ httl ?_
      simp only [applyOp, Cache.Add]
      rw [List.find?_cons_of_neg _ (by simp [hop'])]
      refine find?_filter_of_found _ _ _ _ hfind ?_
      simp only [Bool.not_eq_eq_eq_not, Bool.not_true, beq_eq_false_iff_ne,
        ne_eq]
      exact fun h => hop' h.symm
    | reap t' =>
      simp only [Op.okBefore, decide_eq_true_eq] at hop
      refine ih hrest _ httl ?_
      simp only [applyOp, Cache.reap]
      refine find?_filter_of_found _ _ _ _ hfind ?_
      simp only [httl, decide_eq_true_eq]
      omega

/-- C5: no premature expiry — after `Add(k, p)` at time `t`, as long as
every later operation is neither an `Add` to `k` nor a reaper tick at or
after `t + ttl`, `Get(k)` still returns `(p, true)`. -/
theorem c5_no_premature_expiry (c : Cache) (k : String) (p : Payload)
    (t : Nat) (ops : List Op) (hd : 0 < c.ttl)
    (hops : ∀ op ∈ ops, Op.okBefore k (t + c.ttl) op = true) :
    (run (c.Add k p t) ops).Get k = (p, true) := by
  have hinv := run_find_inv k p t c.ttl hd ops hops (c.Add k p t) rfl
    (by simp [Cache.Add])
  unfold Cache.Get
  rw [hinv.1]

/-- Witness for C5 at a concrete cache, key, payload, time and operations. -/
theorem c5_no_premature_expiry_witness :
    (run ((NewCache 5).Add ("a") [2] 1)
      [Op.reap 3, Op.add ("b") [9] 4]).Get ("a") = ([2], true) :=
  c5_no_premature_expiry (NewCache 5) ("a") [2] 1
    [Op.reap 3, Op.add ("b") [9] 4] (by decide) (by decide)

/-- C6: `Get` returns any present entry even when its age already reached
the TTL but the reaper has not yet swept it — lookup performs no age
check. -/
theorem c6_get_ignores_age (c : Cache) (k : String)
    (kv : String × CacheEntry) (now : Nat)
    (hfind : c.store.find? (fun x => x.1 == k) = some kv)
    (_hstale : c.ttl ≤ now - kv.2.createdAt) :
    c.Get k = (kv.2.payload, true) := by
  unfold Cache.Get
  rw [hfind]

/-- Witness for C6: a cache holding a single entry of age 10 with TTL 5
still answers the lookup with that entry's payload. -/
theorem c6_get_ignores_age_witness :
    (Cache.mk [(("a"), CacheEntry.mk 0 [7])] 5).Get ("a") = ([7], true) :=
  c6_get_ignores_age (Cache.mk [(("a"), CacheEntry.mk 0 [7])] 5) ("a")
    (("a"), CacheEntry.mk 0 [7]) 10 (by decide) (by decide)

/-- Base URL constant from `main.go`. -/
def baseURL : String := "https://pokeapi.co/api/v2/"

/-- Shape decoded by `fetchLocationArea` (`LocationAreaResponse` in
`main.go`); results are (name, url) pairs. -/
structure LocationAreaResponse where
  count : Int
  next : Option String
  previous : Option String
  results : List (String × String)

/-- Shape decoded by `commandExplore` (`LocationAreaDetails` in `main.go`);
only the encountered pokemon names matter. -/
structure LocationAreaDetails where
  pokemonEncounters : List String

/-- Shape decoded by `fetchPokemonInfo` (`PokemonInfo` in `main.go`). -/
structure PokemonInfo where
  name : String
  id : Int
  baseExperience : Int

/-- The `config` struct from `main.go`. -/
structure Config where
  nextURL : Option String
  prevURL : Option String
  cache : Cache
  pokedex : List (String × PokemonInfo)

/-- Result of one `http.Get`: the status code and the outcome of reading
the body (`io.ReadAll` may fail). -/
structure HttpResp where
  status : Nat
  body : Except Unit Payload

/-- The network, embedded as a function from URL to the outcome of
`http.Get` (which may fail before producing any response). -/
abbrev Http := String → Except Unit HttpResp

/-- Errors returned by the embedded command handlers of `main.go`. -/
inductive CmdErr where
  | netErr
  | readErr
  | decodeErr
  | badResponse (status : Nat)
  | wrongArgs

/-- Embedding of `config.fetchLocationArea` (main.go lines 56-85): cache
lookup first; on a miss, `http.Get`, read the body, `Add` it to the cache
under the same URL, then decode. Note the `Add` happens before the
decode, so a decode failure still leaves the body cached. -/
def fetchLocationArea (http : Http)
    (decode : Payload → Option LocationAreaResponse) (now : Nat)
    (c : Config) (url : String) :
    Config × Except CmdErr LocationAreaResponse :=
  match c.cache.Get url with
  | (val, true) =>
    match decode val with
    | some r => (c, Except.ok r)
    | none => (c, Except.error CmdErr.decodeErr)
  | (_, false) =>
    match http url with
    | Except.error _ => (c, Except.error CmdErr.netErr)
    | Except.ok res =>
      match res.body with
      | Except.error _ => (c, Except.error CmdErr.readErr)
      | Except.ok body =>
        let c2 : Config := { c with cache := c.cache.Add url body now }
        match decode body with
        | some r => (c2, Except.ok r)
        | none => (c2, Except.error CmdErr.decodeErr)

/-- Embedding of `config.fetchPokemonInfo` (main.go lines 87-119): builds
`fullURL` from the base URL and the pokemon name and uses that one string
for both the cache lookup and the later `Add`. -/
def fetchPokemonInfo (http : Http)
    (decode : Payload → Option PokemonInfo) (now : Nat)
    (c : Config) (pokemonName : String) :
    Config × Except CmdErr PokemonInfo :=
  let fullURL := baseURL ++ ("/pokemon/") ++ pokemonName
  match c.cache.Get fullURL with
  | (val, true) =>
    match decode val with
    | some r => (c, Except.ok r)
    | none => (c, Except.error CmdErr.decodeErr)
  | (_, false) =>
    match http fullURL with
    | Except.error _ => (c, Except.error CmdErr.netErr)
    | Except.ok res =>
      match res.body with
      | Except.error _ => (c, Except.error CmdErr.readErr)
      | Except.ok body =>
        let c2 : Config := { c with cache := c.cache.Add fullURL body now }
        match decode body with
        | some r => (c2, Except.ok r)
        | none => (c2, Except.error CmdErr.decodeErr)

/-- Embedding of `commandExplore` (main.go lines 188-224): requires exactly
one argument, checks the cache, and on a miss performs the fetch with a
status-code check (`> 299` is an error) before reading, caching under the
same URL, and decoding the body. -/
def commandExplore (http : Http)
    (decode : Payload → Option LocationAreaDetails) (now : Nat)
    (c : Config) (args : List String) : Config × Except CmdErr Unit :=
  match args with
  | [a] =>
    let url := baseURL ++ ("location-area/") ++ a
    match c.cache.Get url with
    | (val, true) =>
      match decode val with
      | some _ => (c, Except.ok ())
      | none => (c, Except.error CmdErr.decodeErr)
    | (_, false) =>
      match http url with
      | Except.error _ => (c, Except.error CmdErr.netErr)
      | Except.ok res =>
        if res.status > 299 then
          (c, Except.error (CmdErr.badResponse res.status))
        else
          match res.body with
          | Except.error _ => (c, Except.error CmdErr.readErr)
          | Except.ok body =>
            let c2 : Config := { c with cache := c.cache.Add url body now }
            match decode body with
            | some _ => (c2, Except.ok ())
            | none => (c2, Except.error CmdErr.decodeErr)
  | _ => (c, Except.error CmdErr.wrongArgs)

/-- Cache evolution of `fetchLocationArea`: the cache is unchanged, or there
was a miss on `url`, the fetch and body read succeeded, and exactly one
`Add` under the same `url` happened. -/
theorem fetchLocationArea_cache_evolution (http : Http)
    (dL : Payload → Option LocationAreaResponse) (now : Nat) (c : Config)
    (url : String) :
    (fetchLocationArea http dL now c url).1.cache = c.cache ∨
    ∃ res body, (c.cache.Get url).2 = false ∧ http url = Except.ok res ∧
      res.body = Except.ok body ∧
      (fetchLocationArea http dL now c url).1.cache =
        c.cache.Add url body now := by
  unfold fetchLocationArea
  split
  next val heq => split <;> exact Or.inl rfl
  next val heq =>
    split
    next => exact Or.inl rfl
    next res heq2 =>
      split
      next => exact Or.inl rfl
      next body heq3 =>
        split <;>
        · right
          exact ⟨res, body, by rw [heq], heq2, heq3, rfl⟩

/-- Cache evolution of `fetchPokemonInfo`: same shape as for
`fetchLocationArea`, with the single `fullURL` string serving as the key
of both the lookup and the `Add`. -/
theorem fetchPokemonInfo_cache_evolution (http : Http)
    (dP : Payload → Option PokemonInfo) (now : Nat) (c : Config)
    (pokemonName : String) :
    (fetchPokemonInfo http dP now c pokemonName).1.cache = c.cache ∨
    ∃ res body,
      (c.cache.Get (baseURL ++ ("/pokemon/") ++ pokemonName)).2 = false ∧
      http (baseURL ++ ("/pokemon/") ++ pokemonName) = Except.ok res ∧
      res.body = Except.ok body ∧
      (fetchPokemonInfo http dP now c pokemonName).1.cache =
        c.cache.Add (baseURL ++ ("/pokemon/") ++ pokemonName) body now := by
  unfold fetchPokemonInfo
  dsimp only
  split
  next val heq => split <;> exact Or.inl rfl
  next val heq =>
    split
    next => exact Or.inl rfl
    next res heq2 =>
      split
      next => exact Or.inl rfl
      next body heq3 =>
        split <;>
        · right
          exact ⟨res, body, by rw [heq], heq2, heq3, rfl⟩

/-- Cache evolution of `commandExplore`: the cache is unchanged, or the
argument list was a single name, the derived URL missed, the fetch
succeeded with a status at most 299, the body read succeeded, and exactly
one `Add` under that same URL happened. -/
theorem commandExplore_cache_evolution (http : Http)
    (dD : Payload → Option LocationAreaDetails) (now : Nat) (c : Config)
    (args : List String) :
    (commandExplore http dD now c args).1.cache = c.cache ∨
    ∃ a res body, args = [a] ∧
      (c.cache.Get (baseURL ++ ("location-area/") ++ a)).2 = false ∧
      http (baseURL ++ ("location-area/") ++ a) = Except.ok res ∧
      res.status ≤ 299 ∧ res.body = Except.ok body ∧
      (commandExplore http dD now c args).1.cache =
        c.cache.Add (baseURL ++ ("location-area/") ++ a) body now := by
  unfold commandExplore
  split
  next a =>
    dsimp only
    split
    next val heq => split <;> exact Or.inl rfl
    next val heq =>
      split
      next => exact Or.inl rfl
      next res heq2 =>
        split
        next => exact Or.inl rfl
        next hstat =>
          split
          next => exact Or.inl rfl
          next body heq3 =>
            split <;>
            · right
              exact ⟨a, res, body, rfl, by rw [heq], heq2, by omega, heq3,
                rfl⟩
  next => exact Or.inl rfl

/-- C8: each of the three `Add` call sites in `main.go` invokes `Add` only
after a successful fetch, and always under the exact string that the same
code path used for its `Get` lookup. -/
theorem c8_add_call_sites (http : Http)
    (dL : Payload → Option LocationAreaResponse)
    (dP : Payload → Option PokemonInfo)
    (dD : Payload → Option LocationAreaDetails) (now : Nat) (c : Config)
    (url pokemonName : String) (args : List String) :
    ((fetchLocationArea http dL now c url).1.cache = c.cache ∨
      ∃ res body, (c.cache.Get url).2 = false ∧ http url = Except.ok res ∧
        res.body = Except.ok body ∧
        (fetchLocationArea http dL now c url).1.cache =
          c.cache.Add url body now) ∧
    ((fetchPokemonInfo http dP now c pokemonName).1.cache = c.cache ∨
      ∃ res body,
        (c.cache.Get (baseURL ++ ("/pokemon/") ++ pokemonName)).2 = false ∧
        http (baseURL ++ ("/pokemon/") ++ pokemonName) = Except.ok res ∧
        res.body = Except.ok body ∧
        (fetchPokemonInfo http dP now c pokemonName).1.cache =
          c.cache.Add (baseURL ++ ("/pokemon/") ++ pokemonName) body now) ∧
    ((commandExplore http dD now c args).1.cache = c.cache ∨
      ∃ a res body, args = [a] ∧
        (c.cache.Get (baseURL ++ ("location-area/") ++ a)).2 = false ∧
        http (baseURL ++ ("location-area/") ++ a) = Except.ok res ∧
        res.status ≤ 299 ∧ res.body = Except.ok body ∧
        (commandExplore http dD now c args).1.cache =
          c.cache.Add (baseURL ++ ("location-area/") ++ a) body now) :=
  ⟨fetchLocationArea_cache_evolution http dL now c url,
    fetchPokemonInfo_cache_evolution http dP now c pokemonName,
    commandExplore_cache_evolution http dD now c args⟩

/-- C9: on a cache miss, if the HTTP request succeeds but the status code
exceeds 299, `commandExplore` returns the bad-response error and leaves
the whole `config` (cache included) unchanged; no `Add` is performed. -/
theorem c9_explore_bad_status (http : Http)
    (dD : Payload → Option LocationAreaDetails) (now : Nat) (c : Config)
    (a : String) (res : HttpResp)
    (hmiss : (c.cache.Get (baseURL ++ ("location-area/") ++ a)).2 = false)
    (hhttp : http (baseURL ++ ("location-area/") ++ a) = Except.ok res)
    (hstatus : 299 < res.status) :
    commandExplore http dD now c [a] =
      (c, Except.error (CmdErr.badResponse res.status)) := by
  rcases hget : c.cache.Get (baseURL ++ ("location-area/") ++ a)
    with ⟨val, ok⟩
  rw [hget] at hmiss
  simp only at hmiss
  subst hmiss
  simp [commandExplore, hget, hhttp, hstatus]

/-- Network stub for the C9 witness: every URL answers with status 404 and
an empty body. -/
def wHttp : Http := fun _ => Except.ok (HttpResp.mk 404 (Except.ok []))

/-- Decoder stub for the C9 witness. -/
def wDecode : Payload → Option LocationAreaDetails := fun _ => none

/-- Starting configuration for the C9 witness: a fresh cache and empty
pagination state. -/
def wCfg : Config := Config.mk none none (NewCache 5) []

/-- Witness for C9 at a concrete configuration, argument and network. -/
theorem c9_explore_bad_status_witness :
    commandExplore wHttp wDecode 0 wCfg [("x")] =
      (wCfg, Except.error (CmdErr.badResponse 404)) :=
  c9_explore_bad_status wHttp wDecode 0 wCfg ("x")
    (HttpResp.mk 404 (Except.ok [])) rfl rfl (by decide)

/-- Model of `unicode.IsSpace` on the ASCII range (the characters relevant
to REPL input lines): space, tab, newline, vertical tab, form feed,
carriage return. -/
def goIsSpace (c : Char) : Bool :=
  c == ' ' || c == '\t' || c == '\n' || c == '\x0b' || c == '\x0c' ||
    c == '\r'

/-- Model of `strings.ToLower` on a line of input, represented as its list
of characters. -/
def goToLower (s : List Char) : List Char :=
  s.map Char.toLower

/-- Model of `strings.Fields`: the maximal runs of non-whitespace
characters, obtained by splitting at whitespace and dropping the empty
segments. -/
def goFields (s : List Char) : List (List Char) :=
  (s.splitOnP goIsSpace).filter (fun w => !w.isEmpty)

/-- Embedding of `cleanInput` (main.go lines 121-125): lowercase the text,
then split it into fields. -/
def cleanInput (text : List Char) : List (List Char) :=
  goFields (goToLower text)

/-- The keys of the `commands` map built in `main` (main.go lines 268-299). -/
def commandNames : List (List Char) :=
  [("exit").data, ("help").data, ("map").data, ("mapb").data,
    ("explore").data, ("catch").data]

/-- Embedding of one REPL iteration's dispatch (main.go lines 301-321):
clean the line; an empty word list dispatches nothing, an unknown first
word dispatches nothing, and otherwise the first word selects the command
and the remaining words become its arguments. -/
def replDispatch (line : List Char) :
    Option (List Char × List (List Char)) :=
  match cleanInput line with
  | [] => none
  | w :: rest =>
    if commandNames.contains w then some (w, rest) else none

/-- Lowercasing an upper-case ASCII code point lands on its lower-case
code point. -/
theorem ofNat_add32_toNat (n : Nat) (h1 : 65 ≤ n) (h2 : n ≤ 90) :
    (Char.ofNat (n + 32)).toNat = n + 32 := by
  interval_cases n <;> decide

/-- Char-level idempotence of `Char.toLower`. -/
theorem toLower_toLower (c : Char) :
    Char.toLower (Char.toLower c) = Char.toLower c := by
  rcases Decidable.em (c.toNat ≥ 65 ∧ c.toNat ≤ 90) with h | h
  · have e1 : Char.toLower c = Char.ofNat (c.toNat + 32) := by
      simp [Char.toLower, h]
    have e2 : (Char.ofNat (c.toNat + 32)).toNat = c.toNat + 32 :=
      ofNat_add32_toNat c.toNat h.1 h.2
    rw [e1]
    simp only [Char.toLower, e2]
    rw [if_neg (by omega)]
  · have e1 : Char.toLower c = c := by simp [Char.toLower, h]
    rw [e1, e1]

/-- List-level idempotence of the lowercasing pass. -/
theorem goToLower_goToLower (s : List Char) :
    goToLower (goToLower s) = goToLower s := by
  unfold goToLower
  rw [List.map_map]
  have : Char.toLower ∘ Char.toLower = Char.toLower :=
    funext toLower_toLower
  rw [this]

/-- Lowercasing fixes whitespace characters. -/
theorem toLower_of_space (c : Char) (h : goIsSpace c = true) :
    Char.toLower c = c := by
  simp only [goIsSpace, Bool.or_eq_true, beq_iff_eq] at h
  rcases h with ((((h | h) | h) | h) | h) | h <;> subst h <;> decide

/-- Splitting an all-whitespace line yields no fields. -/
theorem goFields_all_space (s : List Char)
    (h : ∀ ch ∈ s, goIsSpace ch = true) : goFields s = [] := by
  induction s with
  | nil => decide
  | cons ch tl ih =>
    have hch := h ch (List.mem_cons_self ch tl)
    have htl : ∀ x ∈ tl, goIsSpace x = true :=
      fun x hx => h x (List.mem_cons_of_mem _ hx)
    unfold goFields
    rw [List.splitOnP_cons, if_pos hch, List.filter_cons_of_neg (by simp)]
    exact ih htl

/-- C10: `cleanInput` is exactly the whitespace fields of the lowercased
line; dispatch is therefore case-insensitive (lowercasing the line first
changes nothing, and in particular "MAP" dispatches like "map"), and an
all-whitespace line cleans to the empty word list and dispatches no
command. -/
theorem c10_clean_input_dispatch :
    (∀ s : List Char, cleanInput s = goFields (goToLower s)) ∧
    (∀ s : List Char, cleanInput (goToLower s) = cleanInput s) ∧
    replDispatch (("MAP").data) = replDispatch (("map").data) ∧
    replDispatch (("map").data) = some ((("map").data), []) ∧
    (∀ s : List Char, (∀ ch ∈ s, goIsSpace ch = true) →
      cleanInput s = [] ∧ replDispatch s = none) := by
  refine ⟨fun s => rfl, ?_, by decide, by decide, ?_⟩
  · intro s
    unfold cleanInput
    rw [goToLower_goToLower]
  · intro s h
    have hlow : goToLower s = s := by
      unfold goToLower
      have : ∀ x ∈ s, Char.toLower x = x :=
        fun x hx => toLower_of_space x (h x hx)
      rw [List.map_congr_left this]
      simp
    have hclean : cleanInput s = [] := by
      unfold cleanInput
      rw [hlow]
      exact goFields_all_space s h
    refine ⟨hclean, ?_⟩
    unfold replDispatch
    rw [hclean]

end Pokedex
